import Mathlib

/-!
Verification of the HydroSAR DEM mosaicking workflow (the "Performing
Mosaicking" section of the Lab 2 notebook).

The notebook's core logic is embedded shallowly:

* `predominant_utm` models the predominant-UTM-zone selection
  (`np.unique(..., return_counts=True)`, `np.where(counts == np.max(counts))`,
  `utm_unique[a][0]`).  `np.unique` returns its unique values sorted in
  code-point order, which `sortUnique` reproduces with an insertion sort over
  a structural lexicographic comparison `strLe`.
* The reprojection loop (`gdalwarp` followed by an unconditional `rm`) and
  the merge step (`gdal_merge.py` followed by a deletion loop) are embedded
  as transformers of an explicit filesystem state `FS` (an association list,
  path to CRS code), with the external tools' success abstracted by a
  Boolean oracle.
* `get_DEM_dates` is embedded with both its formal parameter `paths` and the
  enclosing-scope variable `tiff_paths` it actually iterates.

Python string operations used by the notebook (`split`, `strip`) are
re-implemented structurally (`pySplit`, `pyStrip`) so that concrete runs
reduce inside the kernel.  Operations that raise uncaught Python exceptions
are embedded as `Option`-valued, with `none` for the raised exception.
-/

/-! ## Definitions -/

/-- Code-point lexicographic comparison of character lists; this is the order
`np.unique` sorts a string array by. -/
def lexLe : List Char → List Char → Bool
  | [], _ => true
  | _ :: _, [] => false
  | c :: cs, d :: ds => if c < d then true else if d < c then false else lexLe cs ds

/-- Lexicographic comparison of strings by code point. -/
def strLe (a b : String) : Bool := lexLe a.data b.data

/-- Insert a string into a lexicographically sorted list, keeping it sorted. -/
def insertSorted (x : String) : List String → List String
  | [] => [x]
  | y :: ys => if strLe x y then x :: y :: ys else y :: insertSorted x ys

/-- The sorted array of unique values that `np.unique utm_zones` returns. -/
def sortUnique (zones : List String) : List String :=
  zones.dedup.foldr insertSorted []

/-- Number of tiles carrying a given zone code (the `counts` entry of a
unique value returned by `np.unique(..., return_counts=True)`). -/
def countZone (z : String) (zones : List String) : Nat := zones.count z

/-- `np.max` over an array of counts; `none` models the `ValueError` numpy
raises on an empty array. -/
def npMaxNat : List Nat → Option Nat
  | [] => none
  | c :: cs => some (cs.foldl max c)

/-- The predominant UTM zone (notebook lines 649-651):

```python
utm_unique, counts = np.unique(utm_zones, return_counts=True)
a = np.where(counts == np.max(counts))
predominant_utm = utm_unique[a][0]
```

that is, the unique value at the first index whose count equals the maximum
count.  `none` models the uncaught Python exception on an empty input
(`np.max` of an empty array raises `ValueError`). -/
def predominant_utm (utm_zones : List String) : Option String :=
  match npMaxNat ((sortUnique utm_zones).map (fun z => countZone z utm_zones)) with
  | none => none
  | some mx =>
      Option.map Prod.fst
        (((sortUnique utm_zones).zip
          ((sortUnique utm_zones).map (fun z => countZone z utm_zones))).find?
            (fun p => p.2 == mx))

/-- Python `str.split(sep)` over a character list; keeps empty fields and
always returns at least one field. -/
def splitChar (sep : Char) : List Char → List (List Char)
  | [] => [[]]
  | c :: cs =>
    match splitChar sep cs with
    | [] => [[]]
    | h :: t => if c = sep then [] :: h :: t else (c :: h) :: t

/-- Python `str.split(sep)` on a single-character separator. -/
def pySplit (sep : Char) (s : String) : List String :=
  (splitChar sep s.data).map (fun l => String.mk l)

/-- Python `str.strip()`: drop whitespace from both ends. -/
def pyStrip (s : String) : String :=
  String.mk (((s.data.dropWhile Char.isWhitespace).reverse.dropWhile
    Char.isWhitespace).reverse)

/-- The filesystem as the workflow observes it: an association list from
file path to the CRS code a metadata query on that file would report. -/
structure FS where
  files : List (String × String)
deriving DecidableEq

/-- `asfn.path_exists` / shell file existence. -/
def FS.path_exists (fs : FS) (p : String) : Bool :=
  fs.files.any (fun e => e.1 == p)

/-- CRS code that a metadata query (`gdal.Info`) on path `p` reports. -/
def FS.crsOf (fs : FS) (p : String) : Option String :=
  Option.map Prod.snd (fs.files.find? (fun e => e.1 == p))

/-- Create or overwrite the file at `p` as a raster whose metadata reports
CRS code `c`. -/
def FS.write (fs : FS) (p c : String) : FS :=
  if fs.path_exists p then ⟨fs.files.map (fun e => if e.1 == p then (p, c) else e)⟩
  else ⟨fs.files ++ [(p, c)]⟩

/-- `rm` / `os.remove`. -/
def FS.remove (fs : FS) (p : String) : FS :=
  ⟨fs.files.filter (fun e => e.1 != p)⟩

/-- One DEM tile as discovered by the glob, with the parallel-array entries
the notebook keeps for it: its path (`DEM_paths[k]`), the UTM zone code
parsed from its metadata (`utm_zones[k]`) and the CRS authority name
(`utm_types[k]`). -/
structure Tile where
  path : String
  zone : String
  typ : String
deriving DecidableEq

/-- The external `gdalwarp -overwrite src dst -s_srs typ:zone -t_srs
EPSG:pred` invocation: on success it (over)writes `dst` as a raster in the
target CRS; on failure it produces nothing.  Success of the external tool is
abstracted by the oracle `ok`; the notebook shells out with `!{cmd}`, which
never raises on a non-zero exit status. -/
def gdalwarp (ok : String → Bool) (src dst t_srs : String) (fs : FS) : FS :=
  if ok src then fs.write dst t_srs else fs

/-- One iteration of the reprojection loop (notebook lines 677-684):
`temppath = DEM_paths[k].strip()`; `product_name, DEM_name =
temppath.split('/')` (a Python `ValueError`, embedded as `none`, unless the
path has exactly two components); shell out to `gdalwarp` writing
`{product_name}/r{DEM_name}`; then `rm {DEM_paths[k].strip()}` —
unconditionally, whether or not `gdalwarp` succeeded. -/
def reprojectTile (ok : String → Bool) (pred : String) (t : Tile) (fs : FS) : Option FS :=
  match pySplit '/' (pyStrip t.path) with
  | [product_name, DEM_name] =>
      some ((gdalwarp ok (pyStrip t.path) (product_name ++ "/r" ++ DEM_name) pred
        fs).remove (pyStrip t.path))
  | _ => none

/-- The tiles selected for reprojection:
`[i for i, j in enumerate(utm_zones) if j != predominant_utm]`, rendered at
tile level since `DEM_paths`, `utm_zones` and `utm_types` are parallel
arrays indexed by the same `k`. -/
def reproject_indicies (pred : String) (tiles : List Tile) : List Tile :=
  tiles.filter (fun t => t.zone != pred)

/-- The whole reprojection loop, visiting the selected tiles in input
order. -/
def reproject_run (ok : String → Bool) (pred : String) (tiles : List Tile)
    (fs : FS) : Option FS :=
  (reproject_indicies pred tiles).foldlM (fun fs t => reprojectTile ok pred t fs) fs

/-- The `DEMin[0]` accumulation loop: the discovered paths joined by single
spaces. -/
def joinSpace : List String → String
  | [] => ""
  | [p] => p
  | p :: ps => p ++ " " ++ joinSpace ps

/-- The mosaic output path: `f"{DEMin[0].split('/')[0]}/DEM-Mosaic.tif"`. -/
def merge_output (paths : List String) : String :=
  ((pySplit '/' (joinSpace paths)).headD "") ++ "/DEM-Mosaic.tif"

/-- The merge cell (notebook lines 715-722): shell out to
`gdal_merge.py -o output {DEMin[0]}` — on success one merged raster is
written at the output path, in the inputs' common CRS — then delete every
path in `DEMin[0].split(' ')` that is non-empty and exists.  `none` models
the Python error raised when no DEM path was discovered (`DEMin[0]` is then
still the dict `{}` and `.split('/')` raises). -/
def merge_run (mergeOk : Bool) (crs : String) (paths : List String) (fs : FS) :
    Option FS :=
  match paths with
  | [] => none
  | _ :: _ =>
      let fs1 := if mergeOk then fs.write (merge_output paths) crs else fs
      some ((pySplit ' ' (joinSpace paths)).foldl
        (fun acc pth => if pth != "" && acc.path_exists pth then acc.remove pth else acc)
        fs1)

/-- Date extraction for one path:
`pth.split("/")[-1].split("_")[3].split("T")[0]`; the `[3]` indexing raises
(embedded as `none`) on names with fewer than four underscore fields. -/
def dem_date_of (pth : String) : Option String :=
  match (pySplit '/' pth).getLast? with
  | none => none
  | some nm =>
      match (pySplit '_' nm)[3]? with
      | none => none
      | some seg => (pySplit 'T' seg).head?

set_option linter.unusedVariables false in
/-- `get_DEM_dates(paths)` (notebook lines 600-605).  The body iterates the
enclosing-scope variable `tiff_paths`, not the `paths` parameter, so the
embedding takes the captured `tiff_paths` explicitly alongside the unused
formal parameter (the unused-variable lint is silenced deliberately: the
unused parameter is the point). -/
def get_DEM_dates (tiff_paths : List String) (paths : List String) :
    Option (List String) :=
  tiff_paths.mapM dem_date_of

/-! ## Order lemmas -/

theorem lexLe_refl (a : List Char) : lexLe a a = true := by
  induction a with
  | nil => rfl
  | cons c cs ih => simp [lexLe, ih]

theorem lexLe_total (a b : List Char) : lexLe a b = true ∨ lexLe b a = true := by
  induction a generalizing b with
  | nil => exact Or.inl rfl
  | cons c cs ih =>
    cases b with
    | nil => exact Or.inr rfl
    | cons d ds =>
      rcases lt_trichotomy c d with h | h | h
      · exact Or.inl (by simp [lexLe, h])
      · subst h
        rcases ih ds with h2 | h2
        · exact Or.inl (by simp [lexLe, h2])
        · exact Or.inr (by simp [lexLe, h2])
      · exact Or.inr (by simp [lexLe, h])

theorem lexLe_trans {a b c : List Char} (hab : lexLe a b = true)
    (hbc : lexLe b c = true) : lexLe a c = true := by
  induction a generalizing b c with
  | nil => rfl
  | cons x xs ih =>
    cases b with
    | nil => simp [lexLe] at hab
    | cons y ys =>
      cases c with
      | nil => simp [lexLe] at hbc
      | cons z zs =>
        rcases lt_trichotomy x y with hxy | hxy | hxy
        · rcases lt_trichotomy y z with hyz | hyz | hyz
          · simp [lexLe, lt_trans hxy hyz]
          · subst hyz; simp [lexLe, hxy]
          · simp [lexLe, hyz, lt_asymm hyz] at hbc
        · subst hxy
          rcases lt_trichotomy x z with hyz | hyz | hyz
          · simp [lexLe, hyz]
          · subst hyz
            simp [lexLe, lt_irrefl] at hab hbc ⊢
            exact ih hab hbc
          · simp [lexLe, hyz, lt_asymm hyz] at hbc
        · simp [lexLe, hxy, lt_asymm hxy] at hab

theorem strLe_refl (a : String) : strLe a a = true := lexLe_refl a.data

theorem strLe_total (a b : String) : strLe a b = true ∨ strLe b a = true :=
  lexLe_total a.data b.data

theorem strLe_trans {a b c : String} (hab : strLe a b = true)
    (hbc : strLe b c = true) : strLe a c = true := lexLe_trans hab hbc

/-! ## Sorted-unique lemmas -/

theorem mem_insertSorted {a x : String} {l : List String} :
    a ∈ insertSorted x l ↔ a = x ∨ a ∈ l := by
  induction l with
  | nil => simp [insertSorted]
  | cons y ys ih =>
    by_cases h : strLe x y = true
    · simp [insertSorted, h]
    · simp only [insertSorted, if_neg h, List.mem_cons, ih]
      tauto

theorem pairwise_insertSorted {x : String} {l : List String}
    (hl : l.Pairwise (fun a b => strLe a b = true)) :
    (insertSorted x l).Pairwise (fun a b => strLe a b = true) := by
  induction l with
  | nil => simp [insertSorted]
  | cons y ys ih =>
    rcases List.pairwise_cons.mp hl with ⟨hy, hys⟩
    by_cases h : strLe x y = true
    · simp only [insertSorted, if_pos h]
      refine List.pairwise_cons.mpr ⟨?_, hl⟩
      intro b hb
      rcases List.mem_cons.mp hb with rfl | hb
      · exact h
      · exact strLe_trans h (hy b hb)
    · simp only [insertSorted, if_neg h]
      refine List.pairwise_cons.mpr ⟨?_, ih hys⟩
      intro b hb
      rcases mem_insertSorted.mp hb with rfl | hb
      · rcases strLe_total b y with h2 | h2
        · exact absurd h2 h
        · exact h2
      · exact hy b hb

theorem mem_sortUnique {a : String} {zones : List String} :
    a ∈ sortUnique zones ↔ a ∈ zones := by
  rw [show (a ∈ zones ↔ a ∈ zones.dedup) from List.mem_dedup.symm]
  unfold sortUnique
  induction zones.dedup with
  | nil => simp
  | cons y ys ih => simp [mem_insertSorted, ih]

theorem sorted_sortUnique (zones : List String) :
    (sortUnique zones).Pairwise (fun a b => strLe a b = true) := by
  unfold sortUnique
  induction zones.dedup with
  | nil => simp
  | cons y ys ih => exact pairwise_insertSorted ih

/-! ## Maximum-count lemmas -/

theorem foldl_max_init_le (l : List Nat) (a : Nat) : a ≤ l.foldl max a := by
  induction l generalizing a with
  | nil => exact le_refl a
  | cons c cs ih => exact le_trans (le_max_left a c) (ih (max a c))

theorem foldl_max_le {l : List Nat} {a x : Nat} (hx : x ∈ l) : x ≤ l.foldl max a := by
  induction l generalizing a with
  | nil => cases hx
  | cons c cs ih =>
    rcases List.mem_cons.mp hx with rfl | hx
    · exact le_trans (le_max_right a x) (foldl_max_init_le cs (max a x))
    · exact ih hx

theorem foldl_max_mem (l : List Nat) (a : Nat) :
    l.foldl max a = a ∨ l.foldl max a ∈ l := by
  induction l generalizing a with
  | nil => exact Or.inl rfl
  | cons c cs ih =>
    rcases ih (max a c) with h | h
    · rcases max_choice a c with h2 | h2
      · exact Or.inl (by rw [List.foldl_cons, h, h2])
      · exact Or.inr (by rw [List.foldl_cons, h, h2]; exact List.mem_cons_self c cs)
    · exact Or.inr (List.mem_cons_of_mem c h)

theorem npMaxNat_spec {l : List Nat} {m : Nat} (h : npMaxNat l = some m) :
    m ∈ l ∧ ∀ x ∈ l, x ≤ m := by
  cases l with
  | nil => cases h
  | cons c cs =>
    have hm : m = cs.foldl max c := by
      simpa [npMaxNat] using h.symm
    subst hm
    constructor
    · rcases foldl_max_mem cs c with h2 | h2
      · rw [h2]; exact List.mem_cons_self c cs
      · exact List.mem_cons_of_mem c h2
    · intro x hx
      rcases List.mem_cons.mp hx with rfl | hx
      · exact foldl_max_init_le cs x
      · exact foldl_max_le hx

theorem zip_map_self {α β : Type} (f : α → β) (l : List α) :
    l.zip (l.map f) = l.map (fun x => (x, f x)) := by
  induction l with
  | nil => rfl
  | cons x xs ih => simp [ih]

theorem find?_min_of_sorted {p : String → Bool} {a : String} :
    ∀ {l : List String}, l.Pairwise (fun a b => strLe a b = true) →
      l.find? p = some a → ∀ b ∈ l, p b = true → strLe a b = true
  | [], _, h => by cases h
  | x :: xs, hsort, h => by
    rcases List.pairwise_cons.mp hsort with ⟨hx, hxs⟩
    by_cases hpx : p x = true
    · rw [List.find?_cons_of_pos _ hpx] at h
      have hax : x = a := Option.some.inj h
      subst hax
      intro b hb _
      rcases List.mem_cons.mp hb with rfl | hb
      · exact strLe_refl b
      · exact hx b hb
    · rw [List.find?_cons_of_neg _ hpx] at h
      intro b hb hpb
      rcases List.mem_cons.mp hb with rfl | hb
      · exact absurd hpb hpx
      · exact find?_min_of_sorted hxs h b hb hpb

/-- Full characterisation of a successful `predominant_utm` run: on a
non-empty zone list it returns a member of the sorted unique array whose
count is maximal, and which is lexicographically least among the unique
values attaining that maximum. -/
theorem predominant_utm_spec (zones : List String) (h : zones ≠ []) :
    ∃ z, predominant_utm zones = some z ∧ z ∈ sortUnique zones ∧
      (∀ w ∈ sortUnique zones, countZone w zones ≤ countZone z zones) ∧
      (∀ w ∈ sortUnique zones, countZone w zones = countZone z zones →
        strLe z w = true) := by
  obtain ⟨z0, zs, rfl⟩ : ∃ z0 zs, zones = z0 :: zs := by
    cases zones with
    | nil => exact absurd rfl h
    | cons z0 zs => exact ⟨z0, zs, rfl⟩
  have huniq_ne : sortUnique (z0 :: zs) ≠ [] := by
    intro he
    have hz0 : z0 ∈ sortUnique (z0 :: zs) :=
      mem_sortUnique.mpr (List.mem_cons_self z0 zs)
    rw [he] at hz0
    cases hz0
  obtain ⟨m, hm⟩ : ∃ m,
      npMaxNat ((sortUnique (z0 :: zs)).map (fun z => countZone z (z0 :: zs))) = some m := by
    cases hu : sortUnique (z0 :: zs) with
    | nil => exact absurd hu huniq_ne
    | cons u us => exact ⟨_, rfl⟩
  obtain ⟨hmem, hmax⟩ := npMaxNat_spec hm
  obtain ⟨u0, hu0, hfu0⟩ := List.mem_map.mp hmem
  obtain ⟨z, hz⟩ : ∃ z,
      (sortUnique (z0 :: zs)).find? (fun w => countZone w (z0 :: zs) == m) = some z := by
    have hsome :
        ((sortUnique (z0 :: zs)).find? (fun w => countZone w (z0 :: zs) == m)).isSome = true :=
      List.find?_isSome.mpr ⟨u0, hu0, by simp [hfu0]⟩
    exact Option.isSome_iff_exists.mp hsome
  have hpz : countZone z (z0 :: zs) = m := by simpa using List.find?_some hz
  have hzmem : z ∈ sortUnique (z0 :: zs) := List.mem_of_find?_eq_some hz
  refine ⟨z, ?_, hzmem, ?_, ?_⟩
  · unfold predominant_utm
    rw [hm]
    show Option.map Prod.fst
        (((sortUnique (z0 :: zs)).zip
          ((sortUnique (z0 :: zs)).map (fun z => countZone z (z0 :: zs)))).find?
            (fun p => p.2 == m)) = some z
    rw [zip_map_self, List.find?_map]
    have hcomp : ((fun p : String × Nat => p.2 == m) ∘
        fun x => (x, countZone x (z0 :: zs))) = (fun w => countZone w (z0 :: zs) == m) := rfl
    rw [hcomp, hz]
    rfl
  · intro w hw
    rw [hpz]
    exact hmax (countZone w (z0 :: zs)) (List.mem_map.mpr ⟨w, hw, rfl⟩)
  · intro w hw hcount
    refine find?_min_of_sorted (sorted_sortUnique (z0 :: zs)) hz w hw ?_
    rw [show countZone w (z0 :: zs) = m from hcount.trans hpz]
    exact beq_self_eq_true m

/-- If every zone in a non-empty list equals `c`, the predominant zone is `c`. -/
theorem predominant_utm_all_same {zones : List String} {c : String}
    (h : zones ≠ []) (hall : ∀ x ∈ zones, x = c) :
    predominant_utm zones = some c := by
  obtain ⟨z, hz, hzmem, -, -⟩ := predominant_utm_spec zones h
  have : z = c := hall z (mem_sortUnique.mp hzmem)
  rw [hz, this]

/-! ## String-splitting lemmas -/

theorem splitChar_ne_nil (sep : Char) (l : List Char) : splitChar sep l ≠ [] := by
  cases l with
  | nil => simp [splitChar]
  | cons c cs =>
    simp only [splitChar]
    cases h : splitChar sep cs with
    | nil => simp
    | cons a t => by_cases hc : c = sep <;> simp [hc]

theorem splitChar_length (sep : Char) (l : List Char) :
    ((splitChar sep l).map List.length).sum + (splitChar sep l).length
      = l.length + 1 := by
  induction l with
  | nil => rfl
  | cons c cs ih =>
    cases h : splitChar sep cs with
    | nil => exact absurd h (splitChar_ne_nil sep cs)
    | cons a t =>
      rw [h] at ih
      simp only [List.map_cons, List.sum_cons, List.length_cons] at ih
      by_cases hc : c = sep
      · simp only [splitChar, h, if_pos hc, List.map_cons, List.sum_cons,
          List.length_cons, List.length_nil, List.sum_nil]
        omega
      · simp only [splitChar, h, if_neg hc, List.map_cons, List.sum_cons,
          List.length_cons, List.length_nil, List.sum_nil]
        omega

theorem pySplit_two_length {sep : Char} {src a b : String}
    (h : pySplit sep src = [a, b]) : src.length = a.length + b.length + 1 := by
  have hmap : (splitChar sep src.data).map List.length = [a.length, b.length] := by
    have h2 := congrArg (List.map String.length) h
    rw [pySplit, List.map_map] at h2
    exact h2
  have hlen2 : (splitChar sep src.data).length = 2 := by
    have h2 := congrArg List.length h
    rw [pySplit, List.length_map] at h2
    exact h2
  have hkey := splitChar_length sep src.data
  rw [hmap, hlen2] at hkey
  simp only [List.sum_cons, List.sum_nil] at hkey
  have hsrc : src.length = src.data.length := rfl
  omega

/-- The derived output path `{product}/r{name}` can never equal the source
path it was derived from: it is one character longer. -/
theorem rname_ne {product_name DEM_name src : String}
    (h : pySplit '/' src = [product_name, DEM_name]) :
    product_name ++ "/r" ++ DEM_name ≠ src := by
  intro he
  have h1 := pySplit_two_length h
  have hr : ("/r" : String).length = 2 := rfl
  have h2 : (product_name ++ "/r" ++ DEM_name).length
      = product_name.length + 2 + DEM_name.length := by
    rw [String.length_append, String.length_append, hr]
  rw [he] at h2
  omega

/-! ## Filesystem lemmas -/

theorem FS.path_exists_remove_self (fs : FS) (p : String) :
    (fs.remove p).path_exists p = false := by
  simp only [FS.remove, FS.path_exists]
  rw [List.any_eq_false]
  intro e he
  have hmem := List.mem_filter.mp he
  simpa using hmem.2

theorem find?_filter_ne_key {k q : String} (h : k ≠ q) :
    ∀ l : List (String × String),
      (l.filter (fun e => e.1 != q)).find? (fun e => e.1 == k)
        = l.find? (fun e => e.1 == k)
  | [] => rfl
  | e :: es => by
    by_cases he : (e.1 != q) = true
    · rw [List.filter_cons_of_pos (a := e) he]
      by_cases hk : (e.1 == k) = true
      · rw [List.find?_cons_of_pos (a := e) _ hk, List.find?_cons_of_pos (a := e) _ hk]
      · rw [List.find?_cons_of_neg (a := e) _ hk, List.find?_cons_of_neg (a := e) _ hk]
        exact find?_filter_ne_key h es
    · rw [List.filter_cons_of_neg (a := e) he]
      have hq : e.1 = q := by simpa using he
      have hk : ¬((e.1 == k) = true) := by
        rw [hq]
        simp only [beq_iff_eq]
        exact fun hc => h hc.symm
      rw [List.find?_cons_of_neg (a := e) _ hk]
      exact find?_filter_ne_key h es

theorem FS.crsOf_remove_ne (fs : FS) {p q : String} (h : p ≠ q) :
    (fs.remove q).crsOf p = fs.crsOf p := by
  simp only [FS.remove, FS.crsOf]
  rw [find?_filter_ne_key h fs.files]

theorem find?_key_map_update (p c : String) :
    ∀ l : List (String × String), l.any (fun e => e.1 == p) = true →
      (l.map (fun e => if e.1 == p then (p, c) else e)).find? (fun e => e.1 == p)
        = some (p, c)
  | [], h => by cases h
  | e :: es, h => by
    by_cases hp : (e.1 == p) = true
    · simp only [List.map_cons, if_pos hp]
      exact List.find?_cons_of_pos (a := ((p, c) : String × String)) _ (by simp)
    · simp only [List.map_cons, if_neg hp]
      rw [List.find?_cons_of_neg (a := e) _ hp]
      refine find?_key_map_update p c es ?_
      simpa [List.any_cons, hp] using h

theorem find?_key_append_of_absent (p c : String) :
    ∀ l : List (String × String), l.any (fun e => e.1 == p) = false →
      (l ++ [(p, c)]).find? (fun e => e.1 == p) = some (p, c)
  | [], _ => by
    rw [List.nil_append]
    exact List.find?_cons_of_pos (a := ((p, c) : String × String)) _ (by simp)
  | e :: es, h => by
    have hp : ¬((e.1 == p) = true) := by
      intro hc
      rw [List.any_cons, hc, Bool.true_or] at h
      cases h
    rw [List.cons_append, List.find?_cons_of_neg (a := e) _ hp]
    refine find?_key_append_of_absent p c es ?_
    rw [List.any_cons] at h
    exact (Bool.or_eq_false_iff.mp h).2

theorem FS.crsOf_write_self (fs : FS) (p c : String) :
    (fs.write p c).crsOf p = some c := by
  by_cases hex : fs.path_exists p = true
  · have hw : fs.write p c = ⟨fs.files.map (fun e => if e.1 == p then (p, c) else e)⟩ := by
      unfold FS.write
      rw [if_pos hex]
    rw [hw]
    simp only [FS.crsOf]
    rw [find?_key_map_update p c fs.files hex]
    rfl
  · have hw : fs.write p c = ⟨fs.files ++ [(p, c)]⟩ := by
      unfold FS.write
      rw [if_neg hex]
    rw [hw]
    simp only [FS.crsOf]
    have hex2 : fs.files.any (fun e => e.1 == p) = false := Bool.eq_false_iff.mpr hex
    rw [find?_key_append_of_absent p c fs.files hex2]
    rfl

theorem any_key_absent {q crs : String} {ps : List String} (h : q ∉ ps) :
    ((ps.map (fun p => (p, crs))).any (fun e => e.1 == q)) = false := by
  rw [List.any_eq_false]
  intro e he
  obtain ⟨p, hp, rfl⟩ := List.mem_map.mp he
  simp only [beq_iff_eq]
  exact fun hc => h (hc ▸ hp)

theorem foldl_remove_all (crs : String) :
    ∀ (ps : List String) (rest : List (String × String)), ps.Nodup →
      (∀ p ∈ ps, p ≠ "") → (∀ p ∈ ps, ∀ e ∈ rest, e.1 ≠ p) →
      (ps.foldl
        (fun acc pth => if pth != "" && acc.path_exists pth then acc.remove pth else acc)
        ⟨ps.map (fun p => (p, crs)) ++ rest⟩) = (⟨rest⟩ : FS)
  | [], rest, _, _, _ => rfl
  | p :: ps', rest, hnodup, hnil, hdisj => by
    rw [List.foldl_cons]
    have hcond : ((p != "") &&
        FS.path_exists ⟨(p :: ps').map (fun p => (p, crs)) ++ rest⟩ p) = true := by
      rw [Bool.and_eq_true]
      exact ⟨by simpa using hnil p (List.mem_cons_self p ps'), by simp [FS.path_exists]⟩
    rw [if_pos hcond]
    have h1 : (ps'.map (fun p => (p, crs))).filter (fun e => e.1 != p)
        = ps'.map (fun p => (p, crs)) := by
      rw [List.filter_eq_self]
      intro e he
      obtain ⟨q, hq, rfl⟩ := List.mem_map.mp he
      simp only [bne_iff_ne, ne_eq]
      intro hc
      exact (List.nodup_cons.mp hnodup).1 (hc ▸ hq)
    have h2 : rest.filter (fun e => e.1 != p) = rest := by
      rw [List.filter_eq_self]
      intro e he
      simpa using hdisj p (List.mem_cons_self p ps') e he
    have hrm : FS.remove ⟨(p :: ps').map (fun p => (p, crs)) ++ rest⟩ p
        = ⟨ps'.map (fun p => (p, crs)) ++ rest⟩ := by
      simp only [FS.remove, List.map_cons, List.cons_append, List.filter_cons,
        List.filter_append]
      rw [show (((p, crs) : String × String).1 != p) = false by simp]
      simp only [Bool.false_eq_true, if_false, h1, h2]
    rw [hrm]
    exact foldl_remove_all crs ps' rest (List.nodup_cons.mp hnodup).2
      (fun q hq => hnil q (List.mem_cons_of_mem p hq))
      (fun q hq => hdisj q (List.mem_cons_of_mem p hq))

/-! ## Claim C1 (corrected) -/

/-- C1 counterexample: with zone codes `[B, A, B, A]` where `A = "32644"` and
`B = "32645"` tie at two occurrences each, the first code encountered in
iteration order is `B = "32645"`, yet the computation returns `A = "32644"`
(the first tied code in sorted order), refuting the claim that the
first-encountered tied code is always chosen. -/
theorem C1_counterexample :
    predominant_utm ["32645", "32644", "32645", "32644"] = some "32644" ∧
      some ("32644" : String) ≠ some ("32645" : String) :=
  ⟨rfl, by decide⟩

/-- C1 (amended): on a non-empty zone list the selector returns a code of
maximal count that is lexicographically least (by code-point order, the
order `np.unique` sorts by) among all input codes tying for the maximum
count; in particular for input codes `[A, B, A, B]` with `A < B` it still
returns `A`. -/
theorem C1_amended_least_tied (zones : List String) (h : zones ≠ []) :
    ∃ z, predominant_utm zones = some z ∧ z ∈ zones ∧
      (∀ w ∈ zones, countZone w zones ≤ countZone z zones) ∧
      (∀ w ∈ zones, countZone w zones = countZone z zones → strLe z w = true) := by
  obtain ⟨z, hz, hzmem, hmax, hmin⟩ := predominant_utm_spec zones h
  refine ⟨z, hz, mem_sortUnique.mp hzmem, ?_, ?_⟩
  · intro w hw
    exact hmax w (mem_sortUnique.mpr hw)
  · intro w hw hc
    exact hmin w (mem_sortUnique.mpr hw) hc

/-- Witness for the amended C1 at the spec's own example `[A, B, A, B]`
(`A = "32644"`, `B = "32645"`). -/
theorem C1_amended_witness :
    ∃ z, predominant_utm ["32644", "32645", "32644", "32645"] = some z ∧
      z ∈ ["32644", "32645", "32644", "32645"] ∧
      (∀ w ∈ ["32644", "32645", "32644", "32645"],
        countZone w ["32644", "32645", "32644", "32645"] ≤
          countZone z ["32644", "32645", "32644", "32645"]) ∧
      (∀ w ∈ ["32644", "32645", "32644", "32645"],
        countZone w ["32644", "32645", "32644", "32645"] =
          countZone z ["32644", "32645", "32644", "32645"] → strLe z w = true) :=
  C1_amended_least_tied ["32644", "32645", "32644", "32645"] (by decide)

/-! ## Claim C2 (code bug) -/

/-- C2, evaluated at the failing input: one tile `DEMs/t1.tif` in zone
32644, predominant zone 32645, and the external `gdalwarp` failing (oracle
constantly false).  The loop completes without any propagated error (the
result is `some _`, not `none`), no reprojected file was produced, and yet
the original tile file was deleted: the resulting filesystem is empty.
This contradicts the claim that the original must survive a failed
reprojection and that a `ReprojectionError` is propagated. -/
theorem C2_bug_eval :
    reproject_run (fun _ => false) "32645" [⟨"DEMs/t1.tif", "32644", "EPSG"⟩]
      ⟨[("DEMs/t1.tif", "32644")]⟩ = some ⟨[]⟩ := rfl

/-! ## Claim C3 -/

/-- C3: on every non-empty zone list the selector returns a code occurring
in the input, and if all tiles share one code that code is returned. -/
theorem C3_predominant_membership (zones : List String) (h : zones ≠ []) :
    (∃ z, predominant_utm zones = some z ∧ z ∈ zones) ∧
    (∀ c, (∀ x ∈ zones, x = c) → predominant_utm zones = some c) := by
  constructor
  · obtain ⟨z, hz, hzmem, -, -⟩ := predominant_utm_spec zones h
    exact ⟨z, hz, mem_sortUnique.mp hzmem⟩
  · intro c hall
    exact predominant_utm_all_same h hall

/-- Witness for C3 at the end-to-end scenario's zone codes. -/
theorem C3_witness :
    (∃ z, predominant_utm ["32644", "32645", "32645"] = some z ∧
      z ∈ ["32644", "32645", "32645"]) ∧
    (∀ c, (∀ x ∈ ["32644", "32645", "32645"], x = c) →
      predominant_utm ["32644", "32645", "32645"] = some c) :=
  C3_predominant_membership ["32644", "32645", "32645"] (by decide)

/-! ## Claim C4 -/

/-- C4: on the empty tile list the selector fails (`np.max` of an empty
array raises, embedded as `none`); it neither returns a zone nor silently
no-ops. -/
theorem C4_empty_input : predominant_utm [] = none := rfl

/-! ## Claim C5 -/

/-- C5: a tile whose zone already equals the predominant zone is never
selected for reprojection, and running the reprojection pass on such a tile
leaves the filesystem untouched — no external transform call, no deletion,
and the tile's file stays at its original path. -/
theorem C5_matching_tile_noop (pred : String) (t : Tile) (tiles : List Tile)
    (ok : String → Bool) (fs : FS) (h : t.zone = pred) :
    t ∉ reproject_indicies pred tiles ∧ reproject_run ok pred [t] fs = some fs := by
  constructor
  · intro hmem
    have hm := List.mem_filter.mp hmem
    rw [h] at hm
    simp at hm
  · have hfilter : reproject_indicies pred [t] = [] := by
      unfold reproject_indicies
      simp [h]
    unfold reproject_run
    rw [hfilter]
    rfl

/-- Witness for C5: a tile already in zone 32645 with predominant zone
32645. -/
theorem C5_witness :
    (⟨"DEMs/t2.tif", "32645", "EPSG"⟩ : Tile) ∉ reproject_indicies "32645"
        [⟨"DEMs/t2.tif", "32645", "EPSG"⟩, ⟨"DEMs/t1.tif", "32644", "EPSG"⟩] ∧
      reproject_run (fun _ => true) "32645" [⟨"DEMs/t2.tif", "32645", "EPSG"⟩]
        ⟨[("DEMs/t2.tif", "32645")]⟩ = some ⟨[("DEMs/t2.tif", "32645")]⟩ :=
  C5_matching_tile_noop "32645" ⟨"DEMs/t2.tif", "32645", "EPSG"⟩
    [⟨"DEMs/t2.tif", "32645", "EPSG"⟩, ⟨"DEMs/t1.tif", "32644", "EPSG"⟩]
    (fun _ => true) ⟨[("DEMs/t2.tif", "32645")]⟩ rfl

/-! ## Claim C6 -/

/-- C6: for a tile whose zone differs from the predominant zone, if the
external reprojection succeeds then afterwards the original tile file no
longer exists and the derived file `{product}/r{name}` (same directory,
"r"-modified filename) exists with the target CRS. -/
theorem C6_success_replaces_original (ok : String → Bool) (pred : String)
    (t : Tile) (fs : FS) (product_name DEM_name : String)
    (hz : t.zone ≠ pred)
    (hsplit : pySplit '/' (pyStrip t.path) = [product_name, DEM_name])
    (hok : ok (pyStrip t.path) = true) :
    reproject_run ok pred [t] fs
      = some ((fs.write (product_name ++ "/r" ++ DEM_name) pred).remove
          (pyStrip t.path)) ∧
    ((fs.write (product_name ++ "/r" ++ DEM_name) pred).remove
        (pyStrip t.path)).path_exists (pyStrip t.path) = false ∧
    ((fs.write (product_name ++ "/r" ++ DEM_name) pred).remove
        (pyStrip t.path)).crsOf (product_name ++ "/r" ++ DEM_name) = some pred := by
  refine ⟨?_, FS.path_exists_remove_self _ _, ?_⟩
  · have hfilter : reproject_indicies pred [t] = [t] := by
      unfold reproject_indicies
      simp [hz]
    unfold reproject_run
    rw [hfilter, List.foldlM_cons]
    have hrt : reprojectTile ok pred t fs
        = some ((fs.write (product_name ++ "/r" ++ DEM_name) pred).remove
            (pyStrip t.path)) := by
      unfold reprojectTile
      rw [hsplit]
      show some ((gdalwarp ok (pyStrip t.path) (product_name ++ "/r" ++ DEM_name)
        pred fs).remove (pyStrip t.path)) = _
      unfold gdalwarp
      rw [if_pos hok]
    rw [hrt]
    rfl
  · rw [FS.crsOf_remove_ne _ (rname_ne hsplit)]
    exact FS.crsOf_write_self fs _ pred

/-- Witness for C6: tile `DEMs/t1.tif` in zone 32644, predominant zone
32645, successful reprojection. -/
theorem C6_witness :
    reproject_run (fun _ => true) "32645" [⟨"DEMs/t1.tif", "32644", "EPSG"⟩]
      ⟨[("DEMs/t1.tif", "32644")]⟩
      = some (((⟨[("DEMs/t1.tif", "32644")]⟩ : FS).write ("DEMs" ++ "/r" ++ "t1.tif")
          "32645").remove (pyStrip "DEMs/t1.tif")) ∧
    ((((⟨[("DEMs/t1.tif", "32644")]⟩ : FS).write ("DEMs" ++ "/r" ++ "t1.tif")
        "32645").remove (pyStrip "DEMs/t1.tif")).path_exists
          (pyStrip "DEMs/t1.tif") = false) ∧
    ((((⟨[("DEMs/t1.tif", "32644")]⟩ : FS).write ("DEMs" ++ "/r" ++ "t1.tif")
        "32645").remove (pyStrip "DEMs/t1.tif")).crsOf
          ("DEMs" ++ "/r" ++ "t1.tif") = some "32645") :=
  C6_success_replaces_original (fun _ => true) "32645"
    ⟨"DEMs/t1.tif", "32644", "EPSG"⟩ ⟨[("DEMs/t1.tif", "32644")]⟩
    "DEMs" "t1.tif" (by decide) (by decide) rfl

/-! ## Claim C7 -/

/-- C7: a successful merge over a non-empty list of tile files sharing one
common CRS — with distinct non-empty space-free paths, and the mosaic
output path not colliding with an input — writes exactly one new file, the
mosaic at the derived output path, and the deletion loop then removes every
input tile file, leaving exactly the mosaic on disk. -/
theorem C7_merge_cleanup (crs : String) (paths : List String) (fs : FS)
    (hne : paths ≠ [])
    (hjoin : pySplit ' ' (joinSpace paths) = paths)
    (hnodup : paths.Nodup)
    (hnil : ∀ p ∈ paths, p ≠ "")
    (hout : merge_output paths ∉ paths)
    (hfs : fs.files = paths.map (fun p => (p, crs))) :
    merge_run true crs paths fs = some ⟨[(merge_output paths, crs)]⟩ := by
  obtain ⟨p0, ps', rfl⟩ : ∃ p0 ps', paths = p0 :: ps' := by
    cases paths with
    | nil => exact absurd rfl hne
    | cons a l => exact ⟨a, l, rfl⟩
  show some ((pySplit ' ' (joinSpace (p0 :: ps'))).foldl
      (fun acc pth => if pth != "" && acc.path_exists pth then acc.remove pth else acc)
      (fs.write (merge_output (p0 :: ps')) crs))
    = some ⟨[(merge_output (p0 :: ps'), crs)]⟩
  rw [hjoin]
  have hnex : fs.path_exists (merge_output (p0 :: ps')) = false := by
    show fs.files.any (fun e => e.1 == merge_output (p0 :: ps')) = false
    rw [hfs]
    exact any_key_absent hout
  have hw : fs.write (merge_output (p0 :: ps')) crs
      = ⟨(p0 :: ps').map (fun p => (p, crs)) ++ [(merge_output (p0 :: ps'), crs)]⟩ := by
    unfold FS.write
    rw [if_neg (by rw [hnex]; exact Bool.false_ne_true), hfs]
  rw [hw]
  exact congrArg some (foldl_remove_all crs (p0 :: ps')
    [(merge_output (p0 :: ps'), crs)] hnodup hnil
    (fun p hp e he => by
      rcases List.mem_singleton.mp he with rfl
      intro hc
      have hc2 : merge_output (p0 :: ps') = p := hc
      exact hout (hc2.symm ▸ hp)))

/-- Witness for C7: three tiles in the common CRS 32645 merge into
`DEMs/DEM-Mosaic.tif` and all three inputs are deleted. -/
theorem C7_witness :
    merge_run true "32645" ["DEMs/t1.tif", "DEMs/t2.tif", "DEMs/t3.tif"]
      ⟨[("DEMs/t1.tif", "32645"), ("DEMs/t2.tif", "32645"), ("DEMs/t3.tif", "32645")]⟩
    = some ⟨[("DEMs/DEM-Mosaic.tif", "32645")]⟩ :=
  C7_merge_cleanup "32645" ["DEMs/t1.tif", "DEMs/t2.tif", "DEMs/t3.tif"]
    ⟨[("DEMs/t1.tif", "32645"), ("DEMs/t2.tif", "32645"), ("DEMs/t3.tif", "32645")]⟩
    (by decide) (by decide) (by decide) (by decide) (by decide) rfl

/-! ## Claim C8 -/

/-- C8: if every discovered tile already carries one common zone (the state
re-discovery finds after a completed pass), the selector reports that zone
as predominant, every tile is reported as already matching (the
reprojection list is empty), and the pass performs no reprojection and no
deletion: the filesystem state is returned unchanged. -/
theorem C8_rerun_idempotent (tiles : List Tile) (z : String) (ok : String → Bool)
    (fs : FS) (hne : tiles ≠ []) (hall : ∀ t ∈ tiles, t.zone = z) :
    predominant_utm (tiles.map Tile.zone) = some z ∧
    reproject_indicies z tiles = [] ∧
    reproject_run ok z tiles fs = some fs := by
  have hfilter : reproject_indicies z tiles = [] := by
    unfold reproject_indicies
    rw [List.filter_eq_nil_iff]
    intro t ht
    simp [hall t ht]
  refine ⟨?_, hfilter, ?_⟩
  · apply predominant_utm_all_same
    · intro hmap
      exact hne (List.map_eq_nil_iff.mp hmap)
    · intro x hx
      obtain ⟨t, ht, rfl⟩ := List.mem_map.mp hx
      exact hall t ht
  · unfold reproject_run
    rw [hfilter]
    rfl

/-- Witness for C8: the post-run state of the end-to-end scenario, all
tiles in zone 32645. -/
theorem C8_witness :
    predominant_utm ([⟨"DEMs/rt1.tif", "32645", "EPSG"⟩,
        ⟨"DEMs/t2.tif", "32645", "EPSG"⟩,
        ⟨"DEMs/t3.tif", "32645", "EPSG"⟩].map Tile.zone) = some "32645" ∧
    reproject_indicies "32645" [⟨"DEMs/rt1.tif", "32645", "EPSG"⟩,
        ⟨"DEMs/t2.tif", "32645", "EPSG"⟩,
        ⟨"DEMs/t3.tif", "32645", "EPSG"⟩] = [] ∧
    reproject_run (fun _ => true) "32645" [⟨"DEMs/rt1.tif", "32645", "EPSG"⟩,
        ⟨"DEMs/t2.tif", "32645", "EPSG"⟩,
        ⟨"DEMs/t3.tif", "32645", "EPSG"⟩]
      ⟨[("DEMs/rt1.tif", "32645"), ("DEMs/t2.tif", "32645"),
        ("DEMs/t3.tif", "32645")]⟩
      = some ⟨[("DEMs/rt1.tif", "32645"), ("DEMs/t2.tif", "32645"),
        ("DEMs/t3.tif", "32645")]⟩ :=
  C8_rerun_idempotent [⟨"DEMs/rt1.tif", "32645", "EPSG"⟩,
      ⟨"DEMs/t2.tif", "32645", "EPSG"⟩, ⟨"DEMs/t3.tif", "32645", "EPSG"⟩]
    "32645" (fun _ => true)
    ⟨[("DEMs/rt1.tif", "32645"), ("DEMs/t2.tif", "32645"),
      ("DEMs/t3.tif", "32645")]⟩
    (by decide) (by decide)

/-! ## Claim C9 -/

/-- C9: on every non-empty zone list the selector's result is the element of
the sorted unique-code array (the `np.unique` output) that attains the
maximum count and is sorted-first (lexicographically least) among the
unique codes tying for that maximum — the sorted order, not the encounter
order, decides ties. -/
theorem C9_sorted_tiebreak (zones : List String) (h : zones ≠ []) :
    ∃ z, predominant_utm zones = some z ∧ z ∈ sortUnique zones ∧
      (∀ w ∈ sortUnique zones, countZone w zones ≤ countZone z zones) ∧
      (∀ w ∈ sortUnique zones,
        countZone w zones = countZone z zones → strLe z w = true) :=
  predominant_utm_spec zones h

/-- Witness for C9 at the claim's example `[B, A, B, A]` (`A = "32644"`,
`B = "32645"`): the sorted-first tied code is returned even though `B`
occurs first. -/
theorem C9_witness :
    ∃ z, predominant_utm ["32645", "32644", "32645", "32644"] = some z ∧
      z ∈ sortUnique ["32645", "32644", "32645", "32644"] ∧
      (∀ w ∈ sortUnique ["32645", "32644", "32645", "32644"],
        countZone w ["32645", "32644", "32645", "32644"] ≤
          countZone z ["32645", "32644", "32645", "32644"]) ∧
      (∀ w ∈ sortUnique ["32645", "32644", "32645", "32644"],
        countZone w ["32645", "32644", "32645", "32644"] =
          countZone z ["32645", "32644", "32645", "32644"] → strLe z w = true) :=
  C9_sorted_tiebreak ["32645", "32644", "32645", "32644"] (by decide)

/-! ## Claim C10 -/

/-- C10: `get_DEM_dates` ignores its `paths` parameter entirely: for one and
the same captured `tiff_paths`, any two argument lists give the same result,
because the body iterates the enclosing-scope `tiff_paths` rather than the
parameter. -/
theorem C10_paths_ignored (tiff_paths p1 p2 : List String) :
    get_DEM_dates tiff_paths p1 = get_DEM_dates tiff_paths p2 := rfl
